import Mathlib

/-!
Verification of the iridium assembler and virtual machine (Rust sources
under `src/`).  The VM is embedded from `src/src/vm.rs`; the assembler
driver from `src/src/assembler/mod.rs`, its symbol table from
`src/src/assembler/symbols.rs`, its error type from
`src/src/assembler/assembler_errors.rs`, and the text-level parsers from
`src/src/assembler/{program_parsers,directive_parsers,opcode_parsers,
operand_parsers,register_parsers}.rs`.  The files `instruction.rs`
(the `Opcode` enum), `instruction_parsers.rs` and `label_parsers.rs` are
referenced by the sources but are not present in the repository snapshot;
those parts are modelled from the specification, and each such definition
says so in its doc comment.

Machine integers are modelled as `Nat` / `Int` with explicit wrap-around
where the Rust types wrap; Rust panics are modelled as a distinct
non-returning outcome: in the VM by `Option` (out-of-bounds indexing,
division by zero, division overflow — `none` means the call does not
return), and in the parsers by the `ParseResult.panic` constructor (the
`unwrap` aborts on out-of-range register and integer literals, which no
nom combinator recovers from).
-/

/-- Modelled from the spec (§4.1): `instruction.rs` with the `Opcode` enum is
not in `src/`; the variant list is the one given by the opcode table. -/
inductive Opcode where
  | LOAD | ADD | SUB | MUL | DIV | HLT | JMP | JMPF | JMPB
  | EQ | NEQ | GT | LT | GTE | LTE | JMPE | NOP | ALOC
  | INC | DEC | DJMPE | PRTS | IGL
deriving DecidableEq, Repr

/-- Modelled from the spec (§4.1): the byte-to-opcode table
(`From<u8> for Opcode` in the missing `instruction.rs`); byte codes are
assigned densely from 0 and any unknown byte decodes to `IGL`. -/
def Opcode.fromByte (b : Nat) : Opcode :=
  if b = 0 then .LOAD else if b = 1 then .ADD else if b = 2 then .SUB
  else if b = 3 then .MUL else if b = 4 then .DIV else if b = 5 then .HLT
  else if b = 6 then .JMP else if b = 7 then .JMPF else if b = 8 then .JMPB
  else if b = 9 then .EQ else if b = 10 then .NEQ else if b = 11 then .GT
  else if b = 12 then .LT else if b = 13 then .GTE else if b = 14 then .LTE
  else if b = 15 then .JMPE else if b = 16 then .NOP else if b = 17 then .ALOC
  else if b = 18 then .INC else if b = 19 then .DEC else if b = 20 then .DJMPE
  else if b = 21 then .PRTS else .IGL

/-- Modelled from the spec (§4.1): the mnemonic-to-opcode table of the
missing `instruction.rs`; mnemonics are case-sensitive lowercase and
unknown strings map to `IGL`. -/
def Opcode.fromMnemonic (s : String) : Opcode :=
  if s = "load" then .LOAD else if s = "add" then .ADD else if s = "sub" then .SUB
  else if s = "mul" then .MUL else if s = "div" then .DIV else if s = "hlt" then .HLT
  else if s = "jmp" then .JMP else if s = "jmpf" then .JMPF else if s = "jmpb" then .JMPB
  else if s = "eq" then .EQ else if s = "neq" then .NEQ else if s = "gt" then .GT
  else if s = "lt" then .LT else if s = "gte" then .GTE else if s = "lte" then .LTE
  else if s = "jmpe" then .JMPE else if s = "nop" then .NOP else if s = "aloc" then .ALOC
  else if s = "inc" then .INC else if s = "dec" then .DEC else if s = "djmpe" then .DJMPE
  else if s = "prts" then .PRTS else .IGL

/-- Modelled from the spec (§4.1): the opcode-to-byte direction of the
table in the missing `instruction.rs`.  `IGL` is reserved; 100 stands for
an unassigned byte (any value ≥ 22 decodes back to `IGL`). -/
def Opcode.toByte : Opcode → Nat
  | .LOAD => 0 | .ADD => 1 | .SUB => 2 | .MUL => 3 | .DIV => 4 | .HLT => 5
  | .JMP => 6 | .JMPF => 7 | .JMPB => 8 | .EQ => 9 | .NEQ => 10 | .GT => 11
  | .LT => 12 | .GTE => 13 | .LTE => 14 | .JMPE => 15 | .NOP => 16
  | .ALOC => 17 | .INC => 18 | .DEC => 19 | .DJMPE => 20 | .PRTS => 21
  | .IGL => 100

/-- Two's-complement wrap of an integer into the `i32` range, used where
Rust `i32` arithmetic wraps (release semantics; debug builds panic on
overflow, a distinction none of the verified claims exercises). -/
def wrap32 (x : Int) : Int := (x + 2 ^ 31) % 2 ^ 32 - 2 ^ 31

/-- Reinterpretation of an `i32` value as a 64-bit `usize`, as in Rust
`x as usize` (sign extension then reinterpretation). -/
def usizeOfI32 (x : Int) : Nat := (x % 2 ^ 64).toNat

/-- Wrapping `usize` subtraction (`pc -= value` in `JMPB`); debug builds
panic on underflow, release builds wrap. -/
def usizeSub (a b : Nat) : Nat := (a + (2 ^ 64 - b % 2 ^ 64)) % 2 ^ 64

/-- VM state, embedded from the `VM` struct of `src/src/vm.rs`.
Registers are the `[i32; 32]` register file (a 32-element list of
in-range integers in every reachable state), `remainder` is the `u32`
remainder field, `ro_data` the read-only data section. -/
structure VM where
  registers : List Int
  pc : Nat
  program : List Nat
  heap : List Nat
  remainder : Nat
  equal_flag : Bool
  ro_data : List Nat
deriving DecidableEq, Repr

/-- Embeds `VM::next_8_bits`: read the byte at `pc` and advance `pc` by 1;
`none` models the out-of-bounds panic. -/
def next_8_bits (v : VM) : Option (Nat × VM) :=
  match v.program[v.pc]? with
  | some b => some (b, { v with pc := v.pc + 1 })
  | none => none

/-- Embeds `VM::next_16_bits`: big-endian `u16` from the bytes at `pc` and
`pc + 1`, advancing `pc` by 2; `none` models the out-of-bounds panic. -/
def next_16_bits (v : VM) : Option (Nat × VM) :=
  match v.program[v.pc]?, v.program[v.pc + 1]? with
  | some hi, some lo => some (hi * 256 + lo, { v with pc := v.pc + 2 })
  | _, _ => none

/-- Register read `self.registers[i]`; `none` models the index-out-of-bounds
panic for `i ≥ 32`. -/
def readReg (v : VM) (i : Nat) : Option Int := v.registers[i]?

/-- Register write `self.registers[i] = x`; `none` models the
index-out-of-bounds panic. -/
def writeReg (v : VM) (i : Nat) (x : Int) : Option VM :=
  if i < v.registers.length then some { v with registers := v.registers.set i x }
  else none

/-- Embeds `Vec::resize(new_len, 0)` as used by the `ALOC` arm. -/
def resizeZero (l : List Nat) (n : Nat) : List Nat :=
  if n ≤ l.length then l.take n else l ++ List.replicate (n - l.length) 0

/-- Index (into `ro_data`) of the first zero byte at or after `off`,
mirroring the `while slice[ending_offset] != 0` scan of the `PRTS` arm;
`none` means the scan runs off the end of the buffer (a panic). -/
def findZeroFrom (ro : List Nat) (off : Nat) : Option Nat :=
  ((ro.drop off).findIdx? (fun b => b = 0)).map (fun i => off + i)

/-- Common shape of the `ADD`, `SUB` and `MUL` arms of
`VM::execute_instruction` (the source repeats the same three-line block
with a different operator): read two operand registers, write the result
to the third operand register. -/
def binopStep (v1 : VM) (g : Int → Int → Int) : Option (VM × Bool) := do
  let (i1, v2) ← next_8_bits v1
  let a ← readReg v2 i1
  let (i2, v3) ← next_8_bits v2
  let b2 ← readReg v3 i2
  let (i3, v4) ← next_8_bits v3
  let v5 ← writeReg v4 i3 (g a b2)
  some (v5, false)

/-- Common shape of the six comparison arms (`EQ` .. `LTE`) of
`VM::execute_instruction`: read two operand registers, set `equal_flag`
from the comparison, then consume the trailing unused byte. -/
def compareStep (v1 : VM) (f : Int → Int → Bool) : Option (VM × Bool) := do
  let (i1, v2) ← next_8_bits v1
  let a ← readReg v2 i1
  let (i2, v3) ← next_8_bits v2
  let b2 ← readReg v3 i2
  let v3f : VM := { v3 with equal_flag := f a b2 }
  let (_, v4) ← next_8_bits v3f
  some (v4, false)

/-- Common shape of the `INC` and `DEC` arms of `VM::execute_instruction`:
update one register in place, then consume the two trailing bytes. -/
def incDecStep (v1 : VM) (g : Int → Int) : Option (VM × Bool) := do
  let (i, v2) ← next_8_bits v1
  let a ← readReg v2 i
  let v3 ← writeReg v2 i (g a)
  let (_, v4) ← next_8_bits v3
  let (_, v5) ← next_8_bits v4
  some (v5, false)

/-- Embeds `VM::execute_instruction` of `src/src/vm.rs`, the fetch/decode/
execute step.  The returned `Bool` is the `is_done` flag; `none` models a
panic (out-of-bounds access, division by zero or division overflow). -/
def execute_instruction (v : VM) : Option (VM × Bool) :=
  match v.program[v.pc]? with
  | none => some (v, true)
  | some b =>
    let v1 : VM := { v with pc := v.pc + 1 }
    match Opcode.fromByte b with
    | .LOAD => do
      let (r, v2) ← next_8_bits v1
      let (n, v3) ← next_16_bits v2
      let v4 ← writeReg v3 r (Int.ofNat n)
      some (v4, false)
    | .ADD => binopStep v1 (fun a b2 => wrap32 (a + b2))
    | .SUB => binopStep v1 (fun a b2 => wrap32 (a - b2))
    | .MUL => binopStep v1 (fun a b2 => wrap32 (a * b2))
    | .DIV => do
      let (i1, v2) ← next_8_bits v1
      let a ← readReg v2 i1
      let (i2, v3) ← next_8_bits v2
      let b2 ← readReg v3 i2
      let (i3, v4) ← next_8_bits v3
      if b2 = 0 ∨ (a = -(2 ^ 31) ∧ b2 = -1) then none
      else do
        let v5 ← writeReg v4 i3 (Int.tdiv a b2)
        some ({ v5 with remainder := ((Int.tmod a b2) % 2 ^ 32).toNat }, false)
    | .HLT => some (v1, true)
    | .JMP => do
      let (i, v2) ← next_8_bits v1
      let t ← readReg v2 i
      some ({ v2 with pc := usizeOfI32 t }, false)
    | .JMPF => do
      let (i, v2) ← next_8_bits v1
      let t ← readReg v2 i
      some ({ v2 with pc := (v2.pc + usizeOfI32 t) % 2 ^ 64 }, false)
    | .JMPB => do
      let (i, v2) ← next_8_bits v1
      let t ← readReg v2 i
      some ({ v2 with pc := usizeSub v2.pc (usizeOfI32 t) }, false)
    | .EQ => compareStep v1 (fun a b2 => decide (a = b2))
    | .NEQ => compareStep v1 (fun a b2 => decide (a ≠ b2))
    | .GT => compareStep v1 (fun a b2 => decide (a > b2))
    | .LT => compareStep v1 (fun a b2 => decide (a < b2))
    | .GTE => compareStep v1 (fun a b2 => decide (a ≥ b2))
    | .LTE => compareStep v1 (fun a b2 => decide (a ≤ b2))
    | .JMPE => do
      let (i, v2) ← next_8_bits v1
      let t ← readReg v2 i
      if v2.equal_flag then some ({ v2 with pc := usizeOfI32 t }, false)
      else do
        let (_, v3) ← next_16_bits v2
        some (v3, false)
    | .NOP => do
      let (_, v2) ← next_8_bits v1
      let (_, v3) ← next_8_bits v2
      let (_, v4) ← next_8_bits v3
      some (v4, false)
    | .ALOC => do
      let (i, v2) ← next_8_bits v1
      let bytes ← readReg v2 i
      let newEnd := wrap32 (Int.ofNat v2.heap.length + bytes)
      some ({ v2 with heap := resizeZero v2.heap (usizeOfI32 newEnd) }, false)
    | .INC => incDecStep v1 (fun a => wrap32 (a + 1))
    | .DEC => incDecStep v1 (fun a => wrap32 (a - 1))
    | .DJMPE => do
      let (d, v2) ← next_16_bits v1
      if v2.equal_flag then do
        let v3 : VM := { v2 with pc := d }
        let (_, v4) ← next_8_bits v3
        some (v4, false)
      else do
        let (_, v3) ← next_8_bits v2
        some (v3, false)
    | .PRTS => do
      let (off, v2) ← next_16_bits v1
      match findZeroFrom v2.ro_data off with
      | some _ => some (v2, false)
      | none => none
    | .IGL => some (v1, true)

/-! Structural lemmas about the byte-fetch helpers. -/

theorem next_8_bits_some {v : VM} {b : Nat} {w : VM} (h : next_8_bits v = some (b, w)) :
    w = { v with pc := v.pc + 1 } := by
  unfold next_8_bits at h
  cases hg : v.program[v.pc]? <;> rw [hg] at h <;> simp_all

theorem next_16_bits_some {v : VM} {n : Nat} {w : VM} (h : next_16_bits v = some (n, w)) :
    w = { v with pc := v.pc + 2 } := by
  unfold next_16_bits at h
  cases hg : v.program[v.pc]? <;> rw [hg] at h
  · simp_all
  · cases hg2 : v.program[v.pc + 1]? <;> rw [hg2] at h <;> simp_all

theorem writeReg_some {v : VM} {i : Nat} {x : Int} {w : VM} (h : writeReg v i x = some w) :
    w = { v with registers := v.registers.set i x } := by
  unfold writeReg at h
  split at h <;> simp_all

theorem binopStep_pc {v1 : VM} {g : Int → Int → Int} {p : VM × Bool}
    (h : binopStep v1 g = some p) : p.1.pc = v1.pc + 3 ∧ p.2 = false := by
  unfold binopStep at h
  simp only [bind, Option.bind_eq_some] at h
  obtain ⟨⟨i1, v2⟩, h1, a, ha, ⟨i2, v3⟩, h2, b2, hb, ⟨i3, v4⟩, h3, v5, h5, hp⟩ := h
  obtain rfl := next_8_bits_some h1
  obtain rfl := next_8_bits_some h2
  obtain rfl := next_8_bits_some h3
  obtain rfl := writeReg_some h5
  obtain rfl := Option.some.inj hp
  simp

theorem compareStep_pc {v1 : VM} {f : Int → Int → Bool} {p : VM × Bool}
    (h : compareStep v1 f = some p) : p.1.pc = v1.pc + 3 ∧ p.2 = false := by
  unfold compareStep at h
  simp only [bind, Option.bind_eq_some] at h
  obtain ⟨⟨i1, v2⟩, h1, a, ha, ⟨i2, v3⟩, h2, b2, hb, ⟨t, v4⟩, h3, hp⟩ := h
  obtain rfl := next_8_bits_some h1
  obtain rfl := next_8_bits_some h2
  obtain rfl := next_8_bits_some h3
  obtain rfl := Option.some.inj hp
  simp

theorem incDecStep_pc {v1 : VM} {g : Int → Int} {p : VM × Bool}
    (h : incDecStep v1 g = some p) : p.1.pc = v1.pc + 3 ∧ p.2 = false := by
  unfold incDecStep at h
  simp only [bind, Option.bind_eq_some] at h
  obtain ⟨⟨i, v2⟩, h1, a, ha, v3, h3, ⟨t1, v4⟩, h4, ⟨t2, v5⟩, h5, hp⟩ := h
  obtain rfl := next_8_bits_some h1
  obtain rfl := writeReg_some h3
  obtain rfl := next_8_bits_some h4
  obtain rfl := next_8_bits_some h5
  obtain rfl := Option.some.inj hp
  simp

/-- C2 (amended): whenever `execute_instruction` returns (rather than
panicking) from a state whose `pc` byte is in bounds, the jump opcodes
`JMP`, `JMPF`, `JMPB`, and `JMPE`/`DJMPE` with `equal_flag` set, move `pc`
to their target; of the remaining opcodes, `HLT` and `IGL` leave `pc`
exactly 1 byte past its starting value (they return right after decoding),
`ALOC` 2 bytes, `PRTS` 3 bytes, and all others (`LOAD`, the arithmetic
opcodes, the six comparisons, `NOP`, `INC`, `DEC`, and `JMPE`/`DJMPE` with
`equal_flag` clear) exactly 4 bytes. -/
theorem execute_instruction_pc_advance (v v' : VM) (d : Bool) (c : Nat)
    (hc : v.program[v.pc]? = some c)
    (hx : execute_instruction v = some (v', d)) :
    ((Opcode.fromByte c = .HLT ∨ Opcode.fromByte c = .IGL) → v'.pc = v.pc + 1) ∧
    (Opcode.fromByte c = .ALOC → v'.pc = v.pc + 2) ∧
    (Opcode.fromByte c = .PRTS → v'.pc = v.pc + 3) ∧
    ((Opcode.fromByte c = .LOAD ∨ Opcode.fromByte c = .ADD ∨ Opcode.fromByte c = .SUB ∨
      Opcode.fromByte c = .MUL ∨ Opcode.fromByte c = .DIV ∨ Opcode.fromByte c = .EQ ∨
      Opcode.fromByte c = .NEQ ∨ Opcode.fromByte c = .GT ∨ Opcode.fromByte c = .LT ∨
      Opcode.fromByte c = .GTE ∨ Opcode.fromByte c = .LTE ∨ Opcode.fromByte c = .NOP ∨
      Opcode.fromByte c = .INC ∨ Opcode.fromByte c = .DEC) → v'.pc = v.pc + 4) ∧
    ((Opcode.fromByte c = .JMPE ∨ Opcode.fromByte c = .DJMPE) → v.equal_flag = false →
      v'.pc = v.pc + 4) := by
  simp only [execute_instruction, hc] at hx
  cases hop : Opcode.fromByte c <;> simp only [hop] at hx
  case LOAD =>
    refine ⟨by simp, by simp, by simp, fun _ => ?_, by simp⟩
    simp only [bind, Option.bind_eq_some] at hx
    obtain ⟨⟨r, v2⟩, h1, ⟨n, v3⟩, h2, v4, h4, hp⟩ := hx
    obtain rfl := next_8_bits_some h1
    obtain rfl := next_16_bits_some h2
    obtain rfl := writeReg_some h4
    obtain ⟨rfl, rfl⟩ := Prod.mk.inj (Option.some.inj hp)
    simp
  case ADD =>
    refine ⟨by simp, by simp, by simp, fun _ => ?_, by simp⟩
    have := binopStep_pc hx
    simp at this
    omega
  case SUB =>
    refine ⟨by simp, by simp, by simp, fun _ => ?_, by simp⟩
    have := binopStep_pc hx
    simp at this
    omega
  case MUL =>
    refine ⟨by simp, by simp, by simp, fun _ => ?_, by simp⟩
    have := binopStep_pc hx
    simp at this
    omega
  case DIV =>
    refine ⟨by simp, by simp, by simp, fun _ => ?_, by simp⟩
    simp only [bind, Option.bind_eq_some] at hx
    obtain ⟨⟨i1, v2⟩, h1, a, ha, ⟨i2, v3⟩, h2, b2, hb, ⟨i3, v4⟩, h3, hx⟩ := hx
    obtain rfl := next_8_bits_some h1
    obtain rfl := next_8_bits_some h2
    obtain rfl := next_8_bits_some h3
    split at hx
    · exact (Option.noConfusion hx)
    · simp only [bind, Option.bind_eq_some] at hx
      obtain ⟨v5, h5, hp⟩ := hx
      obtain rfl := writeReg_some h5
      obtain ⟨rfl, rfl⟩ := Prod.mk.inj (Option.some.inj hp)
      simp
  case HLT =>
    refine ⟨fun _ => ?_, by simp, by simp, by simp, by simp⟩
    obtain ⟨rfl, rfl⟩ := Prod.mk.inj (Option.some.inj hx)
    simp
  case IGL =>
    refine ⟨fun _ => ?_, by simp, by simp, by simp, by simp⟩
    obtain ⟨rfl, rfl⟩ := Prod.mk.inj (Option.some.inj hx)
    simp
  case JMP => simp
  case JMPF => simp
  case JMPB => simp
  case EQ =>
    refine ⟨by simp, by simp, by simp, fun _ => ?_, by simp⟩
    have := compareStep_pc hx
    simp at this
    omega
  case NEQ =>
    refine ⟨by simp, by simp, by simp, fun _ => ?_, by simp⟩
    have := compareStep_pc hx
    simp at this
    omega
  case GT =>
    refine ⟨by simp, by simp, by simp, fun _ => ?_, by simp⟩
    have := compareStep_pc hx
    simp at this
    omega
  case LT =>
    refine ⟨by simp, by simp, by simp, fun _ => ?_, by simp⟩
    have := compareStep_pc hx
    simp at this
    omega
  case GTE =>
    refine ⟨by simp, by simp, by simp, fun _ => ?_, by simp⟩
    have := compareStep_pc hx
    simp at this
    omega
  case LTE =>
    refine ⟨by simp, by simp, by simp, fun _ => ?_, by simp⟩
    have := compareStep_pc hx
    simp at this
    omega
  case JMPE =>
    refine ⟨by simp, by simp, by simp, by simp, fun _ hflag => ?_⟩
    simp only [bind, Option.bind_eq_some] at hx
    obtain ⟨⟨i, v2⟩, h1, t, ht, hx⟩ := hx
    obtain rfl := next_8_bits_some h1
    rw [if_neg (by simp [hflag])] at hx
    simp only [bind, Option.bind_eq_some] at hx
    obtain ⟨⟨n, v3⟩, h2, hp⟩ := hx
    obtain rfl := next_16_bits_some h2
    obtain ⟨rfl, rfl⟩ := Prod.mk.inj (Option.some.inj hp)
    simp
  case NOP =>
    refine ⟨by simp, by simp, by simp, fun _ => ?_, by simp⟩
    simp only [bind, Option.bind_eq_some] at hx
    obtain ⟨⟨t1, v2⟩, h1, ⟨t2, v3⟩, h2, ⟨t3, v4⟩, h3, hp⟩ := hx
    obtain rfl := next_8_bits_some h1
    obtain rfl := next_8_bits_some h2
    obtain rfl := next_8_bits_some h3
    obtain ⟨rfl, rfl⟩ := Prod.mk.inj (Option.some.inj hp)
    simp
  case ALOC =>
    refine ⟨by simp, fun _ => ?_, by simp, by simp, by simp⟩
    simp only [bind, Option.bind_eq_some] at hx
    obtain ⟨⟨i, v2⟩, h1, bt, hb, hp⟩ := hx
    obtain rfl := next_8_bits_some h1
    obtain ⟨rfl, rfl⟩ := Prod.mk.inj (Option.some.inj hp)
    simp
  case INC =>
    refine ⟨by simp, by simp, by simp, fun _ => ?_, by simp⟩
    have := incDecStep_pc hx
    simp at this
    omega
  case DEC =>
    refine ⟨by simp, by simp, by simp, fun _ => ?_, by simp⟩
    have := incDecStep_pc hx
    simp at this
    omega
  case DJMPE =>
    refine ⟨by simp, by simp, by simp, by simp, fun _ hflag => ?_⟩
    simp only [bind, Option.bind_eq_some] at hx
    obtain ⟨⟨dd, v2⟩, h1, hx⟩ := hx
    obtain rfl := next_16_bits_some h1
    rw [if_neg (by simp [hflag])] at hx
    simp only [bind, Option.bind_eq_some] at hx
    obtain ⟨⟨t, v3⟩, h2, hp⟩ := hx
    obtain rfl := next_8_bits_some h2
    obtain ⟨rfl, rfl⟩ := Prod.mk.inj (Option.some.inj hp)
    simp
  case PRTS =>
    refine ⟨by simp, by simp, fun _ => ?_, by simp, by simp⟩
    simp only [bind, Option.bind_eq_some] at hx
    obtain ⟨⟨off, v2⟩, h1, hx⟩ := hx
    obtain rfl := next_16_bits_some h1
    split at hx
    · obtain ⟨rfl, rfl⟩ := Prod.mk.inj (Option.some.inj hx)
      simp
    · exact (Option.noConfusion hx)

/-- A 32-register VM about to execute `HLT` (program `[5, 0, 0, 0]`). -/
def vmHLT : VM :=
  { registers := List.replicate 32 0, pc := 0, program := [5, 0, 0, 0],
    heap := [], remainder := 0, equal_flag := false, ro_data := [] }

/-- C2 counterexample: the claim includes `HLT` among the opcodes that
leave `pc` exactly 4 bytes past its starting value, but executing `HLT`
from `pc = 0` returns with `pc = 1` (the source returns right after
`decode_opcode`; its own test `test_hlt_opcode` asserts `pc == 1`). -/
theorem pc_advance_counterexample :
    (execute_instruction vmHLT).map (fun r => (r.1.pc, r.2)) = some (1, true) ∧
    (1 : Nat) ≠ vmHLT.pc + 4 := by decide

/-- A 32-register VM about to execute `LOAD $0 #500`. -/
def vmLOAD : VM :=
  { registers := List.replicate 32 0, pc := 0, program := [0, 0, 1, 244],
    heap := [], remainder := 0, equal_flag := false, ro_data := [] }

/-- State of `vmLOAD` after one `execute_instruction` step. -/
def vmLOADafter : VM :=
  { vmLOAD with pc := 4, registers := (List.replicate 32 (0 : Int)).set 0 500 }

theorem execute_instruction_pc_advance_witness :
    vmLOAD.program[vmLOAD.pc]? = some 0 ∧
    execute_instruction vmLOAD = some (vmLOADafter, false) ∧
    vmLOADafter.pc = vmLOAD.pc + 4 :=
  ⟨by decide, by decide,
    (execute_instruction_pc_advance vmLOAD vmLOADafter false 0 (by decide)
      (by decide)).2.2.2.1 (Or.inl (by decide))⟩

/-- Characterization of the comparison arms (`EQ` .. `LTE`): with the two
operand bytes and the trailing byte in bounds and both operand registers
readable, the step sets `equal_flag` from the comparison and advances `pc`
by 3 past the opcode byte. -/
theorem compareStep_sem (v1 : VM) (f : Int → Int → Bool) {i j t : Nat} {a b : Int}
    (h1 : v1.program[v1.pc]? = some i) (h2 : v1.program[v1.pc + 1]? = some j)
    (h3 : v1.program[v1.pc + 2]? = some t)
    (ha : v1.registers[i]? = some a) (hb : v1.registers[j]? = some b) :
    compareStep v1 f = some ({ v1 with pc := v1.pc + 3, equal_flag := f a b }, false) := by
  unfold compareStep next_8_bits readReg
  simp [h1, h2, h3, ha, hb]


/-- C5: for every pair of `i32` values `(a, b)` held in the operand
registers, executing `EQ` sets `equal_flag` to `a = b`, `NEQ` to `a ≠ b`,
`GT` to `a > b`, `LT` to `a < b`, `GTE` to `a ≥ b`, and `LTE` to `a ≤ b`
(opcode bytes 9..14), and the call returns `false` (continue). -/
theorem comparison_flag_semantics (v : VM) (i j t : Nat) (a b : Int)
    (hpi : v.program[v.pc + 1]? = some i)
    (hpj : v.program[v.pc + 2]? = some j)
    (hpt : v.program[v.pc + 3]? = some t)
    (ha : v.registers[i]? = some a) (hb : v.registers[j]? = some b)
    (hra : -(2 ^ 31) ≤ a ∧ a < 2 ^ 31) (hrb : -(2 ^ 31) ≤ b ∧ b < 2 ^ 31) :
    (v.program[v.pc]? = some 9 →
      (execute_instruction v).map (fun r => (r.1.equal_flag, r.2)) = some (decide (a = b), false)) ∧
    (v.program[v.pc]? = some 10 →
      (execute_instruction v).map (fun r => (r.1.equal_flag, r.2)) = some (decide (a ≠ b), false)) ∧
    (v.program[v.pc]? = some 11 →
      (execute_instruction v).map (fun r => (r.1.equal_flag, r.2)) = some (decide (a > b), false)) ∧
    (v.program[v.pc]? = some 12 →
      (execute_instruction v).map (fun r => (r.1.equal_flag, r.2)) = some (decide (a < b), false)) ∧
    (v.program[v.pc]? = some 13 →
      (execute_instruction v).map (fun r => (r.1.equal_flag, r.2)) = some (decide (a ≥ b), false)) ∧
    (v.program[v.pc]? = some 14 →
      (execute_instruction v).map (fun r => (r.1.equal_flag, r.2)) = some (decide (a ≤ b), false)) := by
  have hpj2 : v.program[v.pc + 1 + 1]? = some j := by
    rw [show v.pc + 1 + 1 = v.pc + 2 by omega]
    exact hpj
  have hpt2 : v.program[v.pc + 1 + 2]? = some t := by
    rw [show v.pc + 1 + 2 = v.pc + 3 by omega]
    exact hpt
  refine ⟨fun h0 => ?_, fun h0 => ?_, fun h0 => ?_, fun h0 => ?_, fun h0 => ?_, fun h0 => ?_⟩
  · have hs := compareStep_sem { v with pc := v.pc + 1 } (fun x y => decide (x = y))
      (by simpa using hpi) (by simpa using hpj2) (by simpa using hpt2) (by simpa using ha)
      (by simpa using hb)
    simp [execute_instruction, h0, Opcode.fromByte, hs]
  · have hs := compareStep_sem { v with pc := v.pc + 1 } (fun x y => decide (x ≠ y))
      (by simpa using hpi) (by simpa using hpj2) (by simpa using hpt2) (by simpa using ha)
      (by simpa using hb)
    simp only [ne_eq, decide_not, gt_iff_lt, ge_iff_le] at hs
    simp [execute_instruction, h0, Opcode.fromByte, hs]
  · have hs := compareStep_sem { v with pc := v.pc + 1 } (fun x y => decide (x > y))
      (by simpa using hpi) (by simpa using hpj2) (by simpa using hpt2) (by simpa using ha)
      (by simpa using hb)
    simp only [ne_eq, decide_not, gt_iff_lt, ge_iff_le] at hs
    simp [execute_instruction, h0, Opcode.fromByte, hs]
  · have hs := compareStep_sem { v with pc := v.pc + 1 } (fun x y => decide (x < y))
      (by simpa using hpi) (by simpa using hpj2) (by simpa using hpt2) (by simpa using ha)
      (by simpa using hb)
    simp [execute_instruction, h0, Opcode.fromByte, hs]
  · have hs := compareStep_sem { v with pc := v.pc + 1 } (fun x y => decide (x ≥ y))
      (by simpa using hpi) (by simpa using hpj2) (by simpa using hpt2) (by simpa using ha)
      (by simpa using hb)
    simp only [ne_eq, decide_not, gt_iff_lt, ge_iff_le] at hs
    simp [execute_instruction, h0, Opcode.fromByte, hs]
  · have hs := compareStep_sem { v with pc := v.pc + 1 } (fun x y => decide (x ≤ y))
      (by simpa using hpi) (by simpa using hpj2) (by simpa using hpt2) (by simpa using ha)
      (by simpa using hb)
    simp [execute_instruction, h0, Opcode.fromByte, hs]

/-- A 32-register VM with `registers[0] = registers[1] = 10` about to
execute `EQ $0 $1`. -/
def vmEQ : VM :=
  { registers := ((List.replicate 32 (0 : Int)).set 0 10).set 1 10, pc := 0,
    program := [9, 0, 1, 0], heap := [], remainder := 0, equal_flag := false,
    ro_data := [] }

theorem comparison_flag_semantics_witness :
    vmEQ.program[vmEQ.pc]? = some 9 ∧ vmEQ.registers[0]? = some (10 : Int) ∧
    (execute_instruction vmEQ).map (fun r => (r.1.equal_flag, r.2)) =
      some (decide ((10 : Int) = 10), false) :=
  ⟨by decide, by decide,
    (comparison_flag_semantics vmEQ 0 1 0 10 10 (by decide) (by decide) (by decide)
      (by decide) (by decide) (by decide) (by decide)).1 (by decide)⟩

/-- C4 (amended): when the byte at `pc` decodes to `DIV` and the divisor
register is nonzero — and the division is not the overflowing
`i32::MIN / -1`, on which the source panics — the destination register
receives the truncated quotient, `remainder` receives the remainder cast
to `u32`, and every other register is unchanged. -/
theorem div_semantics (v : VM) (b1 b2 b3 : Nat) (x y : Int)
    (hp0 : v.program[v.pc]? = some 4)
    (hp1 : v.program[v.pc + 1]? = some b1)
    (hp2 : v.program[v.pc + 2]? = some b2)
    (hp3 : v.program[v.pc + 3]? = some b3)
    (hx : v.registers[b1]? = some x) (hy : v.registers[b2]? = some y)
    (hlen : b3 < v.registers.length)
    (hy0 : y ≠ 0) (hov : ¬(x = -(2 ^ 31) ∧ y = -1)) :
    ∃ v', execute_instruction v = some (v', false) ∧
      v'.registers[b3]? = some (Int.tdiv x y) ∧
      v'.remainder = ((Int.tmod x y) % 2 ^ 32).toNat ∧
      v'.pc = v.pc + 4 ∧
      ∀ k, k ≠ b3 → v'.registers[k]? = v.registers[k]? := by
  have hp2b : v.program[v.pc + 1 + 1]? = some b2 := by
    rw [show v.pc + 1 + 1 = v.pc + 2 by omega]
    exact hp2
  have hp3b : v.program[v.pc + 1 + 1 + 1]? = some b3 := by
    rw [show v.pc + 1 + 1 + 1 = v.pc + 3 by omega]
    exact hp3
  have hcond : ¬(y = 0 ∨ (x = -(2 ^ 31) ∧ y = -1)) := fun h => h.elim hy0 hov
  have hstep : execute_instruction v =
      some (VM.mk (v.registers.set b3 (Int.tdiv x y)) (v.pc + 4) v.program v.heap
        (((Int.tmod x y) % 2 ^ 32).toNat) v.equal_flag v.ro_data, false) := by
    simp only [execute_instruction, hp0, Opcode.fromByte]
    norm_num
    simp [next_8_bits, readReg, writeReg, hp1, hp2b, hp3b, hx, hy, hcond, hlen]
    refine ⟨by omega, fun hx2 hy2 => ?_⟩
    exact absurd ⟨by rw [hx2]; norm_num, hy2⟩ hov
  refine ⟨_, hstep, ?_, rfl, by simp, fun k hk => ?_⟩
  · simp [List.getElem?_set_self hlen]
  · simp [List.getElem?_set_ne (fun h => hk h.symm)]

/-- A 32-register VM about to execute `DIV $1 $2 $3` with
`registers[1] = i32::MIN` and `registers[2] = -1`. -/
def vmDIVovf : VM :=
  { registers := ((List.replicate 32 (0 : Int)).set 1 (-(2 ^ 31))).set 2 (-1), pc := 0,
    program := [4, 1, 2, 3], heap := [], remainder := 0, equal_flag := false,
    ro_data := [] }

/-- C4 counterexample: the claim promises a quotient whenever the divisor
register is nonzero, but for `i32::MIN / -1` (divisor `-1 ≠ 0`) the Rust
division panics with an overflow, so `execute_instruction` does not
return at all. -/
theorem div_overflow_counterexample :
    vmDIVovf.registers[2]? = some (-1 : Int) ∧ (-1 : Int) ≠ 0 ∧
    execute_instruction vmDIVovf = none := by decide

/-- A 32-register VM about to execute `DIV $1 $2 $3` with
`registers[1] = 7` and `registers[2] = 2`. -/
def vmDIV : VM :=
  { registers := ((List.replicate 32 (0 : Int)).set 1 7).set 2 2, pc := 0,
    program := [4, 1, 2, 3], heap := [], remainder := 0, equal_flag := false,
    ro_data := [] }

theorem div_semantics_witness :
    vmDIV.program[vmDIV.pc]? = some 4 ∧ vmDIV.registers[1]? = some (7 : Int) ∧
    vmDIV.registers[2]? = some (2 : Int) ∧ (2 : Int) ≠ 0 ∧
    (∃ v', execute_instruction vmDIV = some (v', false) ∧
      v'.registers[3]? = some (Int.tdiv 7 2) ∧
      v'.remainder = ((Int.tmod 7 2) % 2 ^ 32).toNat ∧
      v'.pc = vmDIV.pc + 4 ∧
      ∀ k, k ≠ 3 → v'.registers[k]? = vmDIV.registers[k]?) :=
  ⟨by decide, by decide, by decide, by decide,
    div_semantics vmDIV 1 2 3 7 2 (by decide) (by decide) (by decide) (by decide)
      (by decide) (by decide) (by decide) (by decide) (by decide)⟩

/-- C3 (amended): for `DJMPE` with big-endian operand `imm16`
(`hi * 256 + lo`), when `equal_flag` is clear the trailing byte at
`pc + 3` is consumed and `pc` advances by 4; when `equal_flag` is set the
source first sets `pc := imm16` and only then consumes one byte — the
byte consumed is the one at the destination, leaving `pc = imm16 + 1`
(not `imm16`), and the destination byte must be in bounds or the fetch
panics. -/
theorem djmpe_semantics (v : VM) (hi lo : Nat)
    (hp0 : v.program[v.pc]? = some 20)
    (hp1 : v.program[v.pc + 1]? = some hi)
    (hp2 : v.program[v.pc + 2]? = some lo) :
    (v.equal_flag = true → ∀ t, v.program[hi * 256 + lo]? = some t →
      (execute_instruction v).map (fun r => (r.1.pc, r.2)) = some (hi * 256 + lo + 1, false)) ∧
    (v.equal_flag = false → ∀ t, v.program[v.pc + 3]? = some t →
      (execute_instruction v).map (fun r => (r.1.pc, r.2)) = some (v.pc + 4, false)) := by
  have hp2b : v.program[v.pc + 1 + 1]? = some lo := by
    rw [show v.pc + 1 + 1 = v.pc + 2 by omega]
    exact hp2
  constructor
  · intro hf t ht
    simp [execute_instruction, hp0, Opcode.fromByte, next_16_bits, next_8_bits, hp1, hp2b, hf, ht]
  · intro hf t ht
    have htb : v.program[v.pc + 1 + 2]? = some t := by
      rw [show v.pc + 1 + 2 = v.pc + 3 by omega]
      exact ht
    simp [execute_instruction, hp0, Opcode.fromByte, next_16_bits, next_8_bits, hp1, hp2b, hf, htb]

/-- A VM with `equal_flag` set about to execute `DJMPE` with `imm16 = 8`
(program `[20, 0, 8, 99, 0, 0, 0, 0, 7]`). -/
def vmDJMPE : VM :=
  { registers := List.replicate 32 0, pc := 0,
    program := [20, 0, 8, 99, 0, 0, 0, 0, 7], heap := [], remainder := 0,
    equal_flag := true, ro_data := [] }

/-- C3 counterexample: with `equal_flag` set and `imm16 = 8`, the claim
says `pc` ends at 8; the source sets `pc := 8` and then consumes the byte
at the destination, so `pc` ends at 9. -/
theorem djmpe_pc_counterexample :
    vmDJMPE.equal_flag = true ∧
    (execute_instruction vmDJMPE).map (fun r => (r.1.pc, r.2)) = some (9, false) ∧
    (9 : Nat) ≠ 0 * 256 + 8 := by decide

theorem djmpe_semantics_witness :
    vmDJMPE.program[vmDJMPE.pc]? = some 20 ∧ vmDJMPE.equal_flag = true ∧
    (execute_instruction vmDJMPE).map (fun r => (r.1.pc, r.2)) =
      some (0 * 256 + 8 + 1, false) :=
  ⟨by decide, by decide,
    (djmpe_semantics vmDJMPE 0 8 (by decide) (by decide) (by decide)).1 (by decide) 7
      (by decide)⟩

/-- The `PRTS` terminator scan finds no zero exactly when no byte of
`ro_data` at or after `off` is zero (including `off` past the end). -/
theorem findZeroFrom_eq_none_iff {ro : List Nat} {off : Nat} :
    findZeroFrom ro off = none ↔ ∀ k, off ≤ k → ro[k]? ≠ some 0 := by
  unfold findZeroFrom
  rw [Option.map_eq_none']
  rw [List.findIdx?_eq_none_iff]
  constructor
  · intro h k hk hz
    have hd : (ro.drop off)[k - off]? = some 0 := by
      rw [List.getElem?_drop]
      rwa [show off + (k - off) = k by omega]
    have hmem : (0 : Nat) ∈ ro.drop off := List.mem_iff_getElem?.mpr ⟨k - off, hd⟩
    have := h 0 hmem
    simp at this
  · intro h x hmem
    obtain ⟨i, hi⟩ := List.mem_iff_getElem?.mp hmem
    rw [List.getElem?_drop] at hi
    by_contra hbad
    simp at hbad
    subst hbad
    exact h (off + i) (by omega) hi


/-- C10: executing `PRTS` with operand `off = hi * 256 + lo` panics (the
scan indexes `ro_data` out of bounds) exactly when `ro_data` has no zero
byte at any index at or after `off`; in particular the scan is safe
precisely when such a terminator exists. -/
theorem prts_panic_iff (v : VM) (hi lo : Nat)
    (hp0 : v.program[v.pc]? = some 21)
    (hp1 : v.program[v.pc + 1]? = some hi)
    (hp2 : v.program[v.pc + 2]? = some lo) :
    execute_instruction v = none ↔
      ∀ k, hi * 256 + lo ≤ k → v.ro_data[k]? ≠ some 0 := by
  have hp2b : v.program[v.pc + 1 + 1]? = some lo := by
    rw [show v.pc + 1 + 1 = v.pc + 2 by omega]
    exact hp2
  rw [← findZeroFrom_eq_none_iff]
  simp only [execute_instruction, hp0, Opcode.fromByte]
  norm_num
  simp only [next_16_bits, hp1, hp2b]
  cases hf : findZeroFrom v.ro_data (hi * 256 + lo) <;> simp [bind, hf]

/-- A VM about to execute `PRTS` with offset 0 whose `ro_data` contains no
zero terminator. -/
def vmPRTS : VM :=
  { registers := List.replicate 32 0, pc := 0, program := [21, 0, 0],
    heap := [], remainder := 0, equal_flag := false, ro_data := [72, 101] }

theorem prts_panic_iff_witness :
    vmPRTS.program[vmPRTS.pc]? = some 21 ∧ execute_instruction vmPRTS = none :=
  ⟨by decide,
    (prts_panic_iff vmPRTS 0 0 (by decide) (by decide) (by decide)).mpr
      (by
        intro k hk
        rcases k with _ | _ | n <;> simp [vmPRTS])⟩

/-! The assembler: data model from `src/src/assembler/mod.rs`,
`symbols.rs` and `assembler_errors.rs`. -/

/-- Embeds the `Token` enum of `src/src/assembler/mod.rs`. -/
inductive Token where
  | Op (code : Opcode)
  | Register (reg_num : Nat)
  | IntegerOperand (value : Int)
  | LabelDeclaration (name : String)
  | LabelUsage (name : String)
  | Directive (name : String)
  | IrString (name : String)
deriving DecidableEq, Repr

/-- Embeds `SymbolType` of `src/src/assembler/symbols.rs`. -/
inductive SymbolType where
  | Label | Integer | IrString
deriving DecidableEq, Repr

/-- Embeds `Symbol` of `src/src/assembler/symbols.rs` (named `AsmSymbol`
here because `Symbol` already exists in the ambient library): offsets are
`None` until resolved. -/
structure AsmSymbol where
  name : String
  offset : Option Nat
  symbol_type : SymbolType
deriving DecidableEq, Repr

/-- Embeds `SymbolTable` of `src/src/assembler/symbols.rs`. -/
structure SymbolTable where
  symbols : List AsmSymbol
deriving DecidableEq, Repr

/-- Embeds `SymbolTable::add_symbol` (append). -/
def SymbolTable.add_symbol (st : SymbolTable) (s : AsmSymbol) : SymbolTable :=
  ⟨st.symbols ++ [s]⟩

/-- Embeds `SymbolTable::has_symbol` (linear scan for the name). -/
def SymbolTable.has_symbol (st : SymbolTable) (s : String) : Bool :=
  st.symbols.any (fun sym => sym.name = s)

/-- Offset update on the first symbol with the given name, as in the loop
of `SymbolTable::set_symbol_offset`. -/
def setOffsetAux : List AsmSymbol → String → Nat → List AsmSymbol
  | [], _, _ => []
  | sym :: rest, s, off =>
    if sym.name = s then { sym with offset := some off } :: rest
    else sym :: setOffsetAux rest s off

/-- Embeds `SymbolTable::set_symbol_offset` (the returned `bool` is unused
by every caller and is dropped). -/
def SymbolTable.set_symbol_offset (st : SymbolTable) (s : String) (off : Nat) : SymbolTable :=
  ⟨setOffsetAux st.symbols s off⟩

/-- Embeds `SymbolTable::symbol_value`: the offset of the first symbol
with the given name. -/
def SymbolTable.symbol_value (st : SymbolTable) (s : String) : Option Nat :=
  match st.symbols.find? (fun sym => sym.name = s) with
  | some sym => sym.offset
  | none => none

/-- Embeds `AssemblerError` of `src/src/assembler/assembler_errors.rs`. -/
inductive AssemblerError where
  | NoSegmentDeclarationFound (instruction : Nat)
  | StringConstantDeclaredWithoutLabel (instruction : Nat)
  | SymbolAlreadyDeclared
  | UnknownDirectiveFound (directive : String)
  | NonOpcodeInOpcodeField
  | InsufficientSections
  | ParseError (error : String)
deriving DecidableEq, Repr

/-- Embeds `AssemblerPhase` of `src/src/assembler/mod.rs`. -/
inductive AssemblerPhase where
  | First | Second
deriving DecidableEq, Repr

/-- Embeds `AssemblerSection` of `src/src/assembler/mod.rs`. -/
inductive AssemblerSection where
  | Data (starting_instruction : Option Nat)
  | Code (starting_instruction : Option Nat)
  | Unknown
deriving DecidableEq, Repr

/-- Embeds `From<&str> for AssemblerSection`. -/
def AssemblerSection.fromName (name : String) : AssemblerSection :=
  if name = "data" then .Data none
  else if name = "code" then .Code none
  else .Unknown

/-- Modelled from the spec (§3): `instruction_parsers.rs` with the
`AssemblerInstruction` struct is not in `src/`.  One source line: an
optional opcode, an optional directive, an optional label declaration and
up to three operand tokens; the opcode/directive/label slots are
represented by their payloads, since the parser only ever stores
`Op`/`Directive`/`LabelDeclaration` tokens there. -/
structure AssemblerInstruction where
  opcode : Option Opcode
  directive : Option String
  label : Option String
  operand1 : Option Token
  operand2 : Option Token
  operand3 : Option Token
deriving DecidableEq, Repr

/-- Modelled from the spec: `AssemblerInstruction::is_label`. -/
def AssemblerInstruction.is_label (i : AssemblerInstruction) : Bool := i.label.isSome

/-- Modelled from the spec: `AssemblerInstruction::is_opcode`. -/
def AssemblerInstruction.is_opcode (i : AssemblerInstruction) : Bool := i.opcode.isSome

/-- Modelled from the spec: `AssemblerInstruction::is_directive`. -/
def AssemblerInstruction.is_directive (i : AssemblerInstruction) : Bool := i.directive.isSome

/-- Modelled from the spec: `AssemblerInstruction::get_label_name`. -/
def AssemblerInstruction.get_label_name (i : AssemblerInstruction) : Option String := i.label

/-- Modelled from the spec: `AssemblerInstruction::get_directive_name`. -/
def AssemblerInstruction.get_directive_name (i : AssemblerInstruction) : Option String :=
  i.directive

/-- Modelled from the spec: `AssemblerInstruction::get_string_constant`
(the string carried by an `.asciiz` directive sits in the first operand
slot as an `IrString` token). -/
def AssemblerInstruction.get_string_constant (i : AssemblerInstruction) : Option String :=
  match i.operand1 with
  | some (.IrString s) => some s
  | _ => none

/-- Modelled from the spec: `AssemblerInstruction::has_operands` (any
operand slot filled). -/
def AssemblerInstruction.has_operands (i : AssemblerInstruction) : Bool :=
  i.operand1.isSome || i.operand2.isSome || i.operand3.isSome

/-- UTF-8 bytes of a string, as Rust `str::as_bytes`. -/
def strBytes (s : String) : List Nat := s.toUTF8.toList.map (fun b => b.toNat)

/-- Modelled from the spec (§4.4.2): serialization of one operand token
(part of the missing `AssemblerInstruction::to_bytes`): a register is one
byte, an integer immediate two big-endian bytes of its `u16` truncation;
a label usage resolves through the symbol table to an offset serialized
in two big-endian bytes (the spec leaves the exact slot layout open). -/
def operandBytes (st : SymbolTable) : Token → List Nat
  | .Register r => [r % 256]
  | .IntegerOperand v => [(v % 65536).toNat / 256, (v % 65536).toNat % 256]
  | .LabelUsage n =>
    match st.symbol_value n with
    | some off => [off / 256 % 256, off % 256]
    | none => [0, 0]
  | _ => []

/-- Modelled from the spec (§4.4.2): the missing
`AssemblerInstruction::to_bytes`; every opcode instruction is exactly
4 bytes `[opcode_byte, b1, b2, b3]`, unused slots serialized as zero. -/
def AssemblerInstruction.to_bytes (i : AssemblerInstruction) (st : SymbolTable) : List Nat :=
  match i.opcode with
  | some c =>
    c.toByte ::
      (((i.operand1.toList ++ i.operand2.toList ++ i.operand3.toList).flatMap
        (operandBytes st) ++ [0, 0, 0]).take 3)
  | none => []

/-- Embeds `Program` of `src/src/assembler/program_parsers.rs`. -/
structure Program where
  instructions : List AssemblerInstruction
deriving DecidableEq, Repr

/-- Embeds the `Assembler` struct of `src/src/assembler/mod.rs`. -/
structure Assembler where
  phase : AssemblerPhase
  symbols : SymbolTable
  ro : List Nat
  bytecode : List Nat
  ro_offset : Nat
  sections : List AssemblerSection
  current_section : Option AssemblerSection
  current_instruction : Nat
  errors : List AssemblerError
deriving DecidableEq, Repr

/-- Embeds `Assembler::new`. -/
def Assembler.new : Assembler :=
  { phase := .First, symbols := ⟨[]⟩, ro := [], bytecode := [], ro_offset := 0,
    sections := [], current_section := none, current_instruction := 0, errors := [] }

/-- Embeds the `PIE_HEADER_PREFIX` constant. -/
def pieMagic : List Nat := [45, 50, 49, 45]

/-- Embeds `Assembler::write_pie_header`: the 4 magic bytes padded with
zeros to the 64-byte `PIE_HEADER_LENGTH`. -/
def write_pie_header : List Nat := pieMagic ++ List.replicate 60 0

/-- Embeds `Assembler::process_label_declaration`. -/
def process_label_declaration (a : Assembler) (i : AssemblerInstruction) : Assembler :=
  match i.get_label_name with
  | none =>
    { a with errors :=
        a.errors ++ [.StringConstantDeclaredWithoutLabel a.current_instruction] }
  | some name =>
    if a.symbols.has_symbol name then
      { a with errors := a.errors ++ [.SymbolAlreadyDeclared] }
    else
      { a with symbols := a.symbols.add_symbol ⟨name, none, .Label⟩ }

/-- Embeds `Assembler::handle_asciiz`: a no-op outside phase 1; otherwise
set the label symbol offset to `ro_offset` and append the string bytes
plus a zero terminator to the RO buffer. -/
def handle_asciiz (a : Assembler) (i : AssemblerInstruction) : Assembler :=
  if a.phase ≠ .First then a
  else
    match i.get_string_constant with
    | some s =>
      match i.get_label_name with
      | some name =>
        let a1 := { a with symbols := a.symbols.set_symbol_offset name a.ro_offset }
        { a1 with ro := a1.ro ++ strBytes s ++ [0],
                  ro_offset := a1.ro_offset + (strBytes s).length + 1 }
      | none => a
    | none => a

/-- Embeds `Assembler::process_section_header`: unknown names are ignored;
recognized names are appended to `sections` and become the current
section. -/
def process_section_header (a : Assembler) (name : String) : Assembler :=
  if AssemblerSection.fromName name = .Unknown then a
  else { a with sections := a.sections ++ [AssemblerSection.fromName name],
                current_section := some (AssemblerSection.fromName name) }

/-- Embeds `Assembler::process_directive`. -/
def process_directive (a : Assembler) (i : AssemblerInstruction) : Assembler :=
  match i.get_directive_name with
  | none => a
  | some name =>
    if i.has_operands then
      if name = "asciiz" then handle_asciiz a i
      else { a with errors := a.errors ++ [.UnknownDirectiveFound name] }
    else process_section_header a name

/-- The label-handling statement of the phase-1 loop of
`Assembler::process_first_phase`: labels are registered only when a
section is current, otherwise `NoSegmentDeclarationFound` is recorded. -/
def labelPart (a : Assembler) (i : AssemblerInstruction) : Assembler :=
  if i.is_label then
    if a.current_section.isSome then process_label_declaration a i
    else { a with errors := a.errors ++ [.NoSegmentDeclarationFound a.current_instruction] }
  else a

/-- The directive-handling statement shared by both phase loops. -/
def dirPart (a : Assembler) (i : AssemblerInstruction) : Assembler :=
  if i.is_directive then process_directive a i else a

/-- The `current_instruction += 1` statement closing both phase loops. -/
def bumpInstr (a : Assembler) : Assembler :=
  { a with current_instruction := a.current_instruction + 1 }

/-- One iteration of the phase-1 loop of `Assembler::process_first_phase`. -/
def processFirstStep (a : Assembler) (i : AssemblerInstruction) : Assembler :=
  bumpInstr (dirPart (labelPart a i) i)

/-- Embeds `Assembler::process_first_phase`. -/
def process_first_phase (a : Assembler) (p : Program) : Assembler :=
  let a2 := p.instructions.foldl processFirstStep a
  { a2 with phase := .Second }

/-- One iteration of the phase-2 loop of `Assembler::process_second_phase`:
append the 4-byte encoding of opcode instructions, re-dispatch
directives. -/
def processSecondStep (acc : List Nat × Assembler) (i : AssemblerInstruction) :
    List Nat × Assembler :=
  (acc.1 ++ (if i.is_opcode then i.to_bytes acc.2.symbols else []),
    bumpInstr (dirPart acc.2 i))

/-- Embeds `Assembler::process_second_phase` (resets
`current_instruction`, walks the instructions, returns the emitted body). -/
def process_second_phase (a : Assembler) (p : Program) : List Nat × Assembler :=
  p.instructions.foldl processSecondStep ([], { a with current_instruction := 0 })

/-- Embeds the post-parse part of `Assembler::assemble`: write the header,
run phase 1, fail on accumulated errors, fail unless exactly two sections
were recognized, then emit the phase-2 body after the header. -/
def assembleProgram (p : Program) : Except (List AssemblerError) (List Nat) :=
  let a1 := process_first_phase Assembler.new p
  if a1.errors ≠ [] then .error a1.errors
  else if a1.sections.length ≠ 2 then .error (a1.errors ++ [.InsufficientSections])
  else .ok (write_pie_header ++ (process_second_phase a1 p).1)

/-! Text-level parsing.  The token parsers embed
`src/src/assembler/{register_parsers,operand_parsers,opcode_parsers,
directive_parsers}.rs` (nom combinators over `CompleteStr` become plain
functions over `List Char`); the instruction- and label-level parsers are
modelled from the spec, since `instruction_parsers.rs` and
`label_parsers.rs` are not in `src/`.  Character classes are written with
code points (36 `$`, 35 `#`, 64 `@`, 46 `.`, 58 `:`, 10 newline). -/

/-- Alphabetic character (nom `alpha1` class). -/
def isAlphaChar (c : Char) : Bool :=
  decide (97 ≤ c.toNat ∧ c.toNat ≤ 122) || decide (65 ≤ c.toNat ∧ c.toNat ≤ 90)

/-- Decimal digit (nom `digit` class). -/
def isDigitChar (c : Char) : Bool := decide (48 ≤ c.toNat ∧ c.toNat ≤ 57)

/-- Identifier character for label names (spec: `identifier`). -/
def isIdentChar (c : Char) : Bool :=
  isAlphaChar c || isDigitChar c || decide (c.toNat = 95)

/-- Space or tab (insignificant whitespace between tokens). -/
def isSpaceTab (c : Char) : Bool := decide (c.toNat = 32 ∨ c.toNat = 9)

/-- Skip insignificant whitespace. -/
def skipST (cs : List Char) : List Char := cs.dropWhile isSpaceTab

/-- Longest nonempty prefix of characters satisfying `f` (nom `alpha1` /
`digit` shape): fails on an empty match. -/
def takeWhile1 (f : Char → Bool) (cs : List Char) : Option (List Char × List Char) :=
  match cs.takeWhile f with
  | [] => none
  | pre => some (pre, cs.dropWhile f)

/-- Numeric value of a digit string. -/
def digitsToNat (ds : List Char) : Nat :=
  ds.foldl (fun acc c => acc * 10 + (c.toNat - 48)) 0

/-- Outcome of a parser run: a successful parse carrying the unconsumed
remainder, a nom parse failure (which `alt!`, `opt!` and `many1!`
recover from), or a Rust panic (an `unwrap` abort, which no combinator
recovers — the process never returns). -/
inductive ParseResult (α : Type) where
  | ok (a : α) (rem : List Char)
  | fail
  | panic
deriving DecidableEq, Repr

/-- Test for a successful parse. -/
def ParseResult.isOk {α : Type} : ParseResult α → Bool
  | .ok _ _ => true
  | _ => false

/-- Sequencing of parse steps (nom `do_parse!`): failures and panics
propagate. -/
def pbind {α β : Type} (r : ParseResult α) (f : α → List Char → ParseResult β) :
    ParseResult β :=
  match r with
  | .ok a rem => f a rem
  | .fail => .fail
  | .panic => .panic

/-- Optional parse (nom `opt!`): a failure consumes nothing; a panic is
not recoverable. -/
def optParse {α : Type} (p : List Char → ParseResult α) (cs : List Char) :
    ParseResult (Option α) :=
  match p cs with
  | .ok a r => .ok (some a) r
  | .fail => .ok none cs
  | .panic => .panic

/-- Embeds `register` of `src/src/assembler/register_parsers.rs`:
`$` followed by digits, read through `reg_num.parse::<u8>().unwrap()` —
a digit string above 255 does not parse as a `u8`, so the unwrap panics
and the process aborts. -/
def parseRegister (cs : List Char) : ParseResult Token :=
  match skipST cs with
  | [] => .fail
  | c :: rest =>
    if c.toNat = 36 then
      match takeWhile1 isDigitChar rest with
      | some (ds, rem) =>
        if digitsToNat ds ≤ 255 then .ok (.Register (digitsToNat ds)) (skipST rem)
        else .panic
      | none => .fail
    else .fail

/-- Embeds `integer_operand` of `src/src/assembler/operand_parsers.rs`:
`#` followed by digits, read through `parse::<i32>().unwrap()` — a digit
string at or above `2 ^ 31` does not parse as an `i32`, so the unwrap
panics and the process aborts. -/
def parseIntegerOperand (cs : List Char) : ParseResult Token :=
  match skipST cs with
  | [] => .fail
  | c :: rest =>
    if c.toNat = 35 then
      match takeWhile1 isDigitChar rest with
      | some (ds, rem) =>
        if digitsToNat ds < 2 ^ 31 then
          .ok (.IntegerOperand (Int.ofNat (digitsToNat ds))) (skipST rem)
        else .panic
      | none => .fail
    else .fail

/-- Modelled from the spec (§4.2): `label_usage` of the missing
`label_parsers.rs` is `@` followed by an identifier. -/
def parseLabelUsage (cs : List Char) : ParseResult Token :=
  match skipST cs with
  | [] => .fail
  | c :: rest =>
    if c.toNat = 64 then
      match takeWhile1 isIdentChar rest with
      | some (ds, rem) => .ok (.LabelUsage (String.mk ds)) (skipST rem)
      | none => .fail
    else .fail

/-- Embeds `operand` of `src/src/assembler/operand_parsers.rs`:
`integer_operand | label_usage | register` (note: no string-literal
alternative exists in the source file).  `alt!` tries the next branch
only on a failure; a panic aborts. -/
def parseOperand (cs : List Char) : ParseResult Token :=
  match parseIntegerOperand cs with
  | .ok t r => .ok t r
  | .panic => .panic
  | .fail =>
    match parseLabelUsage cs with
    | .ok t r => .ok t r
    | .panic => .panic
    | .fail => parseRegister cs

/-- Embeds `opcode` of `src/src/assembler/opcode_parsers.rs`: an
alphabetic word mapped through the mnemonic table (unknown words become
`IGL`). -/
def parseOpcodeTok (cs : List Char) : ParseResult Token :=
  match takeWhile1 isAlphaChar (skipST cs) with
  | some (ds, rem) => .ok (.Op (Opcode.fromMnemonic (String.mk ds))) rem
  | none => .fail

/-- Embeds `directive_declaration` of
`src/src/assembler/directive_parsers.rs`: `.` followed by an alphabetic
name. -/
def directive_declaration (cs : List Char) : ParseResult Token :=
  match cs with
  | [] => .fail
  | c :: rest =>
    if c.toNat = 46 then
      match takeWhile1 isAlphaChar rest with
      | some (ds, rem) => .ok (.Directive (String.mk ds)) rem
      | none => .fail
    else .fail

/-- Embeds `directive_combined` of
`src/src/assembler/directive_parsers.rs`.  Note the source consumes a
`tag!(".")` and then calls `directive_declaration`, which demands a
second `.`; the embedding reproduces that faithfully. -/
def directive_combined (cs : List Char) : ParseResult AssemblerInstruction :=
  match skipST cs with
  | [] => .fail
  | c :: rest =>
    if c.toNat = 46 then
      match directive_declaration (skipST rest) with
      | .ok (.Directive name) rem =>
        pbind (optParse parseOperand rem) fun o1 rem1 =>
        pbind (optParse parseOperand rem1) fun o2 rem2 =>
        pbind (optParse parseOperand rem2) fun o3 rem3 =>
        .ok ⟨none, some name, none, o1, o2, o3⟩ rem3
      | .ok _ _ => .fail
      | .fail => .fail
      | .panic => .panic
    else .fail

/-- Modelled from the spec (§4.2): `label_decl` of the missing
`label_parsers.rs` is an identifier followed by `:`. -/
def parseLabelDecl (cs : List Char) : ParseResult String :=
  match takeWhile1 isIdentChar (skipST cs) with
  | some (ds, rem) =>
    match rem with
    | c :: rest => if c.toNat = 58 then .ok (String.mk ds) rest else .fail
    | [] => .fail
  | none => .fail

/-- End of an instruction: optional spaces, then a newline or the end of
the input (spec: newline terminates an instruction); never panics. -/
def parseEnd (cs : List Char) : ParseResult Unit :=
  match skipST cs with
  | [] => .ok () []
  | c :: rest => if c.toNat = 10 then .ok () rest else .fail

/-- Modelled from the spec (§4.2): the missing `instruction` parser of
`instruction_parsers.rs`: an optional label declaration, then either an
opcode with up to three operands or a directive (parsed by the source's
`directive` parser), terminated by a newline or end of input. -/
def instructionP (cs : List Char) : ParseResult AssemblerInstruction :=
  pbind (optParse parseLabelDecl cs) fun lab cs1 =>
    match parseOpcodeTok cs1 with
    | .ok (.Op c) rem =>
      pbind (optParse parseOperand rem) fun o1 rem1 =>
      pbind (optParse parseOperand rem1) fun o2 rem2 =>
      pbind (optParse parseOperand rem2) fun o3 rem3 =>
      pbind (parseEnd rem3) fun _ rem4 =>
      .ok ⟨some c, none, lab, o1, o2, o3⟩ rem4
    | .panic => .panic
    | _ =>
      match directive_combined cs1 with
      | .ok ins rem =>
        pbind (parseEnd rem) fun _ rem2 =>
        .ok { ins with label := lab } rem2
      | .fail => .fail
      | .panic => .panic

/-- Fueled iteration of the instruction parser (nom `many1!` keeps
parsing until the sub-parser fails, returning what it consumed; a panic
aborts.  The fuel is an upper bound on the number of iterations, one
character of input per round at minimum). -/
def manyInstr : Nat → List Char → ParseResult (List AssemblerInstruction)
  | 0, cs => .ok [] cs
  | fuel + 1, cs =>
    match instructionP cs with
    | .fail => .ok [] cs
    | .panic => .panic
    | .ok i rem =>
      if rem.length < cs.length then
        match manyInstr fuel rem with
        | .ok is rem2 => .ok (i :: is) rem2
        | .fail => .fail
        | .panic => .panic
      else .ok [i] rem

/-- Embeds `program` of `src/src/assembler/program_parsers.rs`
(`many1!(instruction)`): at least one instruction, returning the parsed
prefix together with the unconsumed remainder. -/
def parseProgram (cs : List Char) : ParseResult Program :=
  match manyInstr (cs.length + 1) cs with
  | .ok [] _ => .fail
  | .ok is rem => .ok ⟨is⟩ rem
  | .fail => .fail
  | .panic => .panic

/-- Stands for the opaque nom diagnostic string `e.to_string()` carried by
`ParseError`. -/
def parseDiag : String := "parse error"

/-- Embeds `Assembler::assemble` of `src/src/assembler/mod.rs` end to end:
parse the raw text (the unconsumed remainder is dropped, as in the
source's `Ok((_remainder, program))`), then run the two phases.  `none`
models a panic during parsing: the call never returns. -/
def assembleRaw (raw : String) : Option (Except (List AssemblerError) (List Nat)) :=
  match parseProgram raw.data with
  | .ok p _ => some (assembleProgram p)
  | .fail => some (.error [.ParseError parseDiag])
  | .panic => none

/-- Decidable equality for `Except`, so that concrete runs of
`assembleRaw` can be checked by `decide`. -/
instance {ε : Type} {α : Type} [DecidableEq ε] [DecidableEq α] :
    DecidableEq (Except ε α) := fun a b =>
  match a, b with
  | .ok x, .ok y =>
    if h : x = y then .isTrue (by rw [h])
    else .isFalse (by intro hc; cases hc; exact h rfl)
  | .error x, .error y =>
    if h : x = y then .isTrue (by rw [h])
    else .isFalse (by intro hc; cases hc; exact h rfl)
  | .ok _, .error _ => .isFalse (by intro hc; cases hc)
  | .error _, .ok _ => .isFalse (by intro hc; cases hc)

/-- Every opcode instruction serializes to exactly 4 bytes. -/
theorem to_bytes_length {i : AssemblerInstruction} (h : i.is_opcode = true) (st : SymbolTable) :
    (i.to_bytes st).length = 4 := by
  unfold AssemblerInstruction.to_bytes
  unfold AssemblerInstruction.is_opcode at h
  cases hop : i.opcode
  · rw [hop] at h
    simp at h
  · simp [List.length_take]
    omega

/-- The phase-2 loop appends exactly 4 bytes per opcode instruction. -/
theorem second_phase_body_length (l : List AssemblerInstruction) :
    ∀ q : List Nat × Assembler,
      (l.foldl processSecondStep q).1.length =
        q.1.length + 4 * l.countP (fun i => i.is_opcode) := by
  induction l with
  | nil => simp
  | cons i l ih =>
    intro q
    rw [List.foldl_cons, ih, List.countP_cons]
    have hfst : (processSecondStep q i).1 =
        q.1 ++ (if i.is_opcode then i.to_bytes q.2.symbols else []) := rfl
    rw [hfst]
    cases hop : i.is_opcode
    · simp [hop]
    · simp [hop, to_bytes_length hop]
      omega

/-- C1: every successful assembly returns the 64-byte header — the 4
magic bytes `{0x2D, 0x32, 0x31, 0x2D}` followed by 60 zero bytes — and a
body of exactly 4 bytes per opcode instruction of the parsed program. -/
theorem assemble_image_shape (raw : String) (img : List Nat)
    (hok : assembleRaw raw = some (.ok img)) :
    ∃ p rem, parseProgram raw.data = .ok p rem ∧
      img.take 4 = pieMagic ∧
      (img.drop 4).take 60 = List.replicate 60 0 ∧
      img.length = 64 + 4 * p.instructions.countP (fun i => i.is_opcode) := by
  unfold assembleRaw at hok
  cases hp : parseProgram raw.data with
  | fail =>
    rw [hp] at hok
    exact absurd hok (by simp)
  | panic =>
    rw [hp] at hok
    exact absurd hok (by simp)
  | ok p rem =>
    simp only [hp] at hok
    have hok2 : assembleProgram p = .ok img := Option.some.inj hok
    refine ⟨p, rem, rfl, ?_⟩
    simp only [assembleProgram] at hok2
    by_cases he : (process_first_phase Assembler.new p).errors = []
    · rw [if_neg (by simp [he])] at hok2
      by_cases hs : (process_first_phase Assembler.new p).sections.length = 2
      · rw [if_neg (by simp [hs])] at hok2
        obtain rfl := Except.ok.inj hok2
        have hflat : write_pie_header ++ (process_second_phase
              (process_first_phase Assembler.new p) p).1 =
            pieMagic ++ (List.replicate 60 0 ++ (process_second_phase
              (process_first_phase Assembler.new p) p).1) := by
          simp [write_pie_header]
        refine ⟨?_, ?_, ?_⟩
        · rw [hflat, show (4 : Nat) = pieMagic.length from rfl,
            List.take_left]
        · rw [hflat, show (4 : Nat) = pieMagic.length from rfl, List.drop_left,
            List.take_append_of_le_length (by simp)]
          simp
        · rw [List.length_append]
          unfold process_second_phase
          rw [second_phase_body_length]
          simp [write_pie_header, pieMagic]
      · rw [if_pos hs] at hok2
        exact (Except.noConfusion hok2)
    · rw [if_pos he] at hok2
      exact (Except.noConfusion hok2)

theorem assemble_image_shape_witness :
    assembleRaw "..data\n..code\nhlt" = some (.ok (write_pie_header ++ [5, 0, 0, 0])) ∧
    (∃ p rem, parseProgram ("..data\n..code\nhlt").data = .ok p rem ∧
      (write_pie_header ++ [5, 0, 0, 0]).take 4 = pieMagic ∧
      ((write_pie_header ++ [5, 0, 0, 0]).drop 4).take 60 = List.replicate 60 0 ∧
      (write_pie_header ++ [5, 0, 0, 0]).length =
        64 + 4 * p.instructions.countP (fun i => i.is_opcode)) :=
  ⟨by decide, assemble_image_shape "..data\n..code\nhlt" _ (by decide)⟩

/-- C7: once a program parses and phase 1 accumulates no errors,
`assemble` fails with exactly `[InsufficientSections]` precisely when the
number of recognized section headers differs from two. -/
theorem insufficient_sections_iff (raw : String) (p : Program) (rem : List Char)
    (hp : parseProgram raw.data = .ok p rem)
    (he : (process_first_phase Assembler.new p).errors = []) :
    (assembleRaw raw = some (.error [.InsufficientSections]) ↔
      (process_first_phase Assembler.new p).sections.length ≠ 2) := by
  unfold assembleRaw
  rw [hp]
  show some (assembleProgram p) = some (.error [.InsufficientSections]) ↔
    (process_first_phase Assembler.new p).sections.length ≠ 2
  rw [Option.some_inj]
  simp only [assembleProgram]
  rw [if_neg (by simp [he])]
  by_cases hs : (process_first_phase Assembler.new p).sections.length = 2
  · rw [if_neg (by simp [hs])]
    simp [hs]
  · rw [if_pos hs, he]
    simp [hs]

theorem insufficient_sections_iff_witness :
    parseProgram ("..data").data =
      .ok ⟨[⟨none, some "data", none, none, none, none⟩]⟩ [] ∧
    (process_first_phase Assembler.new
      ⟨[⟨none, some "data", none, none, none, none⟩]⟩).errors = [] ∧
    (assembleRaw "..data" = some (.error [.InsufficientSections]) ↔
      (process_first_phase Assembler.new
        ⟨[⟨none, some "data", none, none, none, none⟩]⟩).sections.length ≠ 2) :=
  ⟨by decide, by decide,
    insufficient_sections_iff "..data" _ [] (by decide) (by decide)⟩

/-- The spec's S2 source text
`".data\ntest: .asciiz \'This is a test\'\n.code\n"` (the code point 39 is
the single quote). -/
def asciizSource : String :=
  ".data\ntest: .asciiz " ++ (Char.ofNat 39).toString ++ "This is a test" ++
    (Char.ofNat 39).toString ++ "\n.code\n"

/-- C6 (code evaluated at the failing input): the source's
`directive_combined` consumes a `tag!(".")` and then calls
`directive_declaration`, which demands a second `.`, so a single-dot
section header such as `.data` cannot parse (while the double-dot form
`..data` can).  Hence the spec's S2 source fails to parse at its first
line, `assemble` returns `[ParseError ...]`, and the `.asciiz` handling
is never reached — contradicting both the claim and the repository's own
tests `test_ro_data` / `test_assemble_program`. -/
theorem asciiz_source_parse_fails :
    directive_combined ".data".data = .fail ∧
    (instructionP "..data".data).isOk = true ∧
    parseProgram asciizSource.data = .fail ∧
    assembleRaw asciizSource = some (.error [.ParseError parseDiag]) := by
  refine ⟨by decide, by decide, by decide, by decide⟩

/-- An input whose first line parses as a `LOAD` instruction and whose
tail `&&&` is not parseable. -/
def prefixInput : String := "load $0 #100\n&&&"

/-- The one-instruction program covering only the first line of
`prefixInput`. -/
def prefixProgram : Program :=
  ⟨[⟨some .LOAD, none, none, some (.Register 0), some (.IntegerOperand 100), none⟩]⟩

/-- An input whose register literal `$300` does not fit in a `u8`: the
source's `parse::<u8>().unwrap()` panics while parsing it. -/
def panicInput : String := "load $300\nhlt"

/-- C9 counterexample: on `"load $0 #100\n&&&"` the parse step succeeds
consuming only the first line (`many1!` stops at the unparseable tail,
leaving the 3-character remainder `&&&`) and `assemble` proceeds with
that one-instruction prefix, returning `[InsufficientSections]` rather
than a `ParseError`; and on `"load $300\nhlt"` the parse step panics, so
`assemble` returns nothing at all — on neither input does the claimed
dichotomy (full program or `[ParseError]`) hold. -/
theorem parse_prefix_counterexample :
    parseProgram prefixInput.data =
      .ok prefixProgram [Char.ofNat 38, Char.ofNat 38, Char.ofNat 38] ∧
    assembleRaw prefixInput = some (.error [.InsufficientSections]) ∧
    (∀ e, assembleRaw prefixInput ≠ some (.error [.ParseError e])) ∧
    parseProgram panicInput.data = .panic ∧
    assembleRaw panicInput = none := by
  refine ⟨by decide, by decide, fun e h => ?_, by decide, by decide⟩
  rw [show assembleRaw prefixInput = some (.error [.InsufficientSections]) from by decide] at h
  simp at h

/-- C9 (amended): for every input text the parse step has one of three
outcomes: it panics (an out-of-range register or integer literal aborts
the process, so `assemble` never returns), it fails — and then `assemble`
returns the single-element list `[ParseError ...]` — or it succeeds on a
prefix of the input, possibly leaving a nonempty unconsumed remainder
that `assemble` ignores, proceeding with the prefix program. -/
theorem parse_step_outcome (raw : String) :
    (parseProgram raw.data = .panic ∧ assembleRaw raw = none) ∨
    (parseProgram raw.data = .fail ∧
      assembleRaw raw = some (.error [.ParseError parseDiag])) ∨
    (∃ p rem, parseProgram raw.data = .ok p rem ∧
      assembleRaw raw = some (assembleProgram p)) := by
  cases hp : parseProgram raw.data with
  | ok p rem =>
    refine Or.inr (Or.inr ⟨p, rem, rfl, ?_⟩)
    unfold assembleRaw
    rw [hp]
  | fail =>
    refine Or.inr (Or.inl ⟨rfl, ?_⟩)
    unfold assembleRaw
    rw [hp]
  | panic =>
    refine Or.inl ⟨rfl, ?_⟩
    unfold assembleRaw
    rw [hp]

/-- Names currently present in the assembler's symbol table. -/
def namesOf (a : Assembler) : List String := a.symbols.symbols.map (fun s => s.name)

/-- Recognized section header: a directive with no operands whose name
maps to a known section (`data` or `code`). -/
def isSectionHeader (i : AssemblerInstruction) : Bool :=
  match i.get_directive_name with
  | some n => !i.has_operands && decide (AssemblerSection.fromName n ≠ .Unknown)
  | none => false

theorem has_symbol_iff (st : SymbolTable) (s : String) :
    st.has_symbol s = true ↔ s ∈ st.symbols.map (fun sym => sym.name) := by
  unfold SymbolTable.has_symbol
  rw [List.any_eq_true]
  simp only [decide_eq_true_eq, List.mem_map]

theorem setOffsetAux_names (l : List AsmSymbol) (s : String) (off : Nat) :
    (setOffsetAux l s off).map (fun sym => sym.name) = l.map (fun sym => sym.name) := by
  induction l with
  | nil => rfl
  | cons sym rest ih =>
    unfold setOffsetAux
    split <;> simp [ih]

theorem pld_cs (a : Assembler) (i : AssemblerInstruction) :
    (process_label_declaration a i).current_section = a.current_section := by
  unfold process_label_declaration
  rcases h : i.get_label_name with _ | name <;> simp [h]
  split <;> rfl

theorem handle_asciiz_cs (a : Assembler) (i : AssemblerInstruction) :
    (handle_asciiz a i).current_section = a.current_section := by
  unfold handle_asciiz
  split
  · rfl
  · rcases hs : i.get_string_constant with _ | s <;> simp [hs]
    rcases hl : i.get_label_name with _ | name <;> simp [hl]

theorem psh_cs_mono (a : Assembler) (n : String)
    (h : a.current_section.isSome = true) :
    (process_section_header a n).current_section.isSome = true := by
  unfold process_section_header
  split <;> simp [h]

theorem psh_header (a : Assembler) (n : String)
    (h : AssemblerSection.fromName n ≠ .Unknown) :
    (process_section_header a n).current_section.isSome = true := by
  unfold process_section_header
  rw [if_neg h]
  rfl

theorem process_directive_cs_mono (a : Assembler) (i : AssemblerInstruction)
    (h : a.current_section.isSome = true) :
    (process_directive a i).current_section.isSome = true := by
  unfold process_directive
  rcases hd : i.get_directive_name with _ | name <;> simp [hd, h]
  split
  · split
    · rw [handle_asciiz_cs]
      exact h
    · simpa using h
  · exact psh_cs_mono _ _ h

theorem labelPart_cs (a : Assembler) (i : AssemblerInstruction) :
    (labelPart a i).current_section = a.current_section := by
  unfold labelPart
  split
  · split
    · exact pld_cs a i
    · rfl
  · rfl

theorem dirPart_cs_mono (a : Assembler) (i : AssemblerInstruction)
    (h : a.current_section.isSome = true) :
    (dirPart a i).current_section.isSome = true := by
  unfold dirPart
  split
  · exact process_directive_cs_mono a i h
  · exact h

theorem processFirstStep_cs_mono (a : Assembler) (i : AssemblerInstruction)
    (h : a.current_section.isSome = true) :
    (processFirstStep a i).current_section.isSome = true := by
  unfold processFirstStep bumpInstr
  exact dirPart_cs_mono _ _ (by rw [labelPart_cs]; exact h)

theorem processFirstStep_header (a : Assembler) (i : AssemblerInstruction)
    (h : isSectionHeader i = true) :
    (processFirstStep a i).current_section.isSome = true := by
  unfold isSectionHeader at h
  rcases hd : i.get_directive_name with _ | name
  · rw [hd] at h
    simp at h
  · rw [hd] at h
    simp only [Bool.and_eq_true, Bool.not_eq_true', decide_eq_true_eq] at h
    unfold processFirstStep bumpInstr dirPart
    have hdir : i.is_directive = true := by
      unfold AssemblerInstruction.is_directive
      unfold AssemblerInstruction.get_directive_name at hd
      rw [hd]
      rfl
    rw [if_pos hdir]
    unfold process_directive
    have hd2 : (labelPart a i) = labelPart a i := rfl
    rw [show i.get_directive_name = some name from hd]
    simp only
    rw [if_neg (by simp [h.1])]
    exact psh_header _ _ h.2

theorem pld_errors (a : Assembler) (i : AssemblerInstruction) :
    ∃ es, (process_label_declaration a i).errors = a.errors ++ es := by
  unfold process_label_declaration
  rcases h : i.get_label_name with _ | name
  · exact ⟨_, rfl⟩
  · simp only
    split
    · exact ⟨_, rfl⟩
    · exact ⟨[], by simp⟩

theorem handle_asciiz_errors (a : Assembler) (i : AssemblerInstruction) :
    (handle_asciiz a i).errors = a.errors := by
  unfold handle_asciiz
  split
  · rfl
  · rcases hs : i.get_string_constant with _ | s <;> simp [hs]
    rcases hl : i.get_label_name with _ | name <;> simp [hl]

theorem psh_errors (a : Assembler) (n : String) :
    (process_section_header a n).errors = a.errors := by
  unfold process_section_header
  split <;> rfl

theorem process_directive_errors (a : Assembler) (i : AssemblerInstruction) :
    ∃ es, (process_directive a i).errors = a.errors ++ es := by
  unfold process_directive
  rcases hd : i.get_directive_name with _ | name
  · exact ⟨[], by simp⟩
  · simp only
    split
    · split
      · exact ⟨[], by simp [handle_asciiz_errors]⟩
      · exact ⟨_, rfl⟩
    · exact ⟨[], by simp [psh_errors]⟩

theorem labelPart_errors (a : Assembler) (i : AssemblerInstruction) :
    ∃ es, (labelPart a i).errors = a.errors ++ es := by
  unfold labelPart
  split
  · split
    · exact pld_errors a i
    · exact ⟨_, rfl⟩
  · exact ⟨[], by simp⟩

theorem processFirstStep_errors (a : Assembler) (i : AssemblerInstruction) :
    ∃ es, (processFirstStep a i).errors = a.errors ++ es := by
  unfold processFirstStep bumpInstr dirPart
  obtain ⟨es1, h1⟩ := labelPart_errors a i
  split
  · obtain ⟨es2, h2⟩ := process_directive_errors (labelPart a i) i
    exact ⟨es1 ++ es2, by simp [h2, h1]⟩
  · exact ⟨es1, by simp [h1]⟩

theorem handle_asciiz_names (a : Assembler) (i : AssemblerInstruction) :
    namesOf (handle_asciiz a i) = namesOf a := by
  unfold handle_asciiz
  split
  · rfl
  · rcases hs : i.get_string_constant with _ | s <;> simp [hs]
    rcases hl : i.get_label_name with _ | name <;> simp [hl]
    unfold namesOf SymbolTable.set_symbol_offset
    simp [setOffsetAux_names]

theorem psh_names (a : Assembler) (n : String) :
    namesOf (process_section_header a n) = namesOf a := by
  unfold process_section_header
  split <;> rfl

theorem process_directive_names (a : Assembler) (i : AssemblerInstruction) :
    namesOf (process_directive a i) = namesOf a := by
  unfold process_directive
  rcases hd : i.get_directive_name with _ | name
  · rfl
  · simp only
    split
    · split
      · exact handle_asciiz_names a i
      · rfl
    · exact psh_names a name

theorem bump_names (a : Assembler) : namesOf (bumpInstr a) = namesOf a := rfl

theorem bump_errors (a : Assembler) : (bumpInstr a).errors = a.errors := rfl

theorem labelPart_names (a : Assembler) (i : AssemblerInstruction) :
    ∃ ns, namesOf (labelPart a i) = namesOf a ++ ns := by
  unfold labelPart
  split
  · split
    · unfold process_label_declaration
      rcases h : i.get_label_name with _ | name
      · exact ⟨[], by simp [namesOf]⟩
      · simp only
        split
        · exact ⟨[], by simp [namesOf]⟩
        · exact ⟨[name], by simp [namesOf, SymbolTable.add_symbol]⟩
    · exact ⟨[], by simp [namesOf]⟩
  · exact ⟨[], by simp⟩

theorem processFirstStep_names (a : Assembler) (i : AssemblerInstruction) :
    ∃ ns, namesOf (processFirstStep a i) = namesOf a ++ ns := by
  unfold processFirstStep
  obtain ⟨ns, hns⟩ := labelPart_names a i
  rw [bump_names]
  unfold dirPart
  split
  · rw [process_directive_names, hns]
    exact ⟨ns, rfl⟩
  · exact ⟨ns, hns⟩

theorem step_label_mem (a : Assembler) (i : AssemblerInstruction) (n : String)
    (hcs : a.current_section.isSome = true) (hl : i.get_label_name = some n) :
    n ∈ namesOf (processFirstStep a i) ∨
      AssemblerError.SymbolAlreadyDeclared ∈ (processFirstStep a i).errors := by
  have hlab : i.is_label = true := by
    unfold AssemblerInstruction.is_label
    unfold AssemblerInstruction.get_label_name at hl
    rw [hl]
    rfl
  have hLP : n ∈ namesOf (labelPart a i) ∨
      AssemblerError.SymbolAlreadyDeclared ∈ (labelPart a i).errors := by
    unfold labelPart
    rw [if_pos hlab, if_pos hcs]
    unfold process_label_declaration
    rw [hl]
    simp only
    split
    · right
      simp
    · left
      simp [namesOf, SymbolTable.add_symbol]
  unfold processFirstStep
  rw [bump_names, bump_errors]
  unfold dirPart
  split
  · rcases hLP with h | h
    · left
      rw [process_directive_names]
      exact h
    · right
      obtain ⟨es, he⟩ := process_directive_errors (labelPart a i) i
      rw [he]
      exact List.mem_append_left _ h
  · exact hLP

theorem step_label_dup (a : Assembler) (i : AssemblerInstruction) (n : String)
    (hcs : a.current_section.isSome = true) (hl : i.get_label_name = some n)
    (hmem : n ∈ namesOf a) :
    AssemblerError.SymbolAlreadyDeclared ∈ (processFirstStep a i).errors := by
  have hlab : i.is_label = true := by
    unfold AssemblerInstruction.is_label
    unfold AssemblerInstruction.get_label_name at hl
    rw [hl]
    rfl
  have hLP : AssemblerError.SymbolAlreadyDeclared ∈ (labelPart a i).errors := by
    unfold labelPart
    rw [if_pos hlab, if_pos hcs]
    unfold process_label_declaration
    rw [hl]
    simp only
    rw [if_pos ((has_symbol_iff a.symbols n).mpr hmem)]
    simp
  unfold processFirstStep
  rw [bump_errors]
  unfold dirPart
  split
  · obtain ⟨es, he⟩ := process_directive_errors (labelPart a i) i
    rw [he]
    exact List.mem_append_left _ hLP
  · exact hLP

theorem pld_nodup (a : Assembler) (i : AssemblerInstruction)
    (h : (namesOf a).Nodup) : (namesOf (process_label_declaration a i)).Nodup := by
  unfold process_label_declaration
  rcases hl : i.get_label_name with _ | name
  · exact h
  · simp only
    split
    · exact h
    · next hhas =>
      have hnot : name ∉ namesOf a := fun hmem =>
        hhas ((has_symbol_iff a.symbols name).mpr hmem)
      unfold namesOf SymbolTable.add_symbol at *
      simp [List.nodup_append, h, hnot]

theorem processFirstStep_nodup (a : Assembler) (i : AssemblerInstruction)
    (h : (namesOf a).Nodup) : (namesOf (processFirstStep a i)).Nodup := by
  unfold processFirstStep
  rw [bump_names]
  have hLP : (namesOf (labelPart a i)).Nodup := by
    unfold labelPart
    split
    · split
      · exact pld_nodup a i h
      · exact h
    · exact h
  unfold dirPart
  split
  · rw [process_directive_names]
    exact hLP
  · exact hLP

theorem foldl_cs_mono (l : List AssemblerInstruction) (a : Assembler)
    (h : a.current_section.isSome = true) :
    (l.foldl processFirstStep a).current_section.isSome = true := by
  induction l generalizing a with
  | nil => exact h
  | cons i l ih => exact ih _ (processFirstStep_cs_mono a i h)

theorem foldl_errors_mono (l : List AssemblerInstruction) (a : Assembler)
    (e : AssemblerError) (h : e ∈ a.errors) :
    e ∈ (l.foldl processFirstStep a).errors := by
  induction l generalizing a with
  | nil => exact h
  | cons i l ih =>
    refine ih _ ?_
    obtain ⟨es, he⟩ := processFirstStep_errors a i
    rw [he]
    exact List.mem_append_left _ h

theorem foldl_names_mono (l : List AssemblerInstruction) (a : Assembler)
    (n : String) (h : n ∈ namesOf a) :
    n ∈ namesOf (l.foldl processFirstStep a) := by
  induction l generalizing a with
  | nil => exact h
  | cons i l ih =>
    refine ih _ ?_
    obtain ⟨ns, hns⟩ := processFirstStep_names a i
    rw [hns]
    exact List.mem_append_left _ h

theorem foldl_nodup (l : List AssemblerInstruction) (a : Assembler)
    (h : (namesOf a).Nodup) :
    (namesOf (l.foldl processFirstStep a)).Nodup := by
  induction l generalizing a with
  | nil => exact h
  | cons i l ih => exact ih _ (processFirstStep_nodup a i h)

/-- C8: a program containing two label declarations with the same name,
each preceded by a recognized section header, assembles to an error list
containing `SymbolAlreadyDeclared`, and the symbol table records the
duplicate name at most once. -/
theorem duplicate_symbol_error (raw : String) (p : Program) (rem : List Char) (n : String)
    (k i j : Nat) (insk insi insj : AssemblerInstruction)
    (hp : parseProgram raw.data = .ok p rem)
    (hki : k < i) (hij : i < j)
    (hk : p.instructions[k]? = some insk) (hsec : isSectionHeader insk = true)
    (hi : p.instructions[i]? = some insi) (hli : insi.get_label_name = some n)
    (hj : p.instructions[j]? = some insj) (hlj : insj.get_label_name = some n) :
    (∃ errs, assembleRaw raw = some (.error errs) ∧
      AssemblerError.SymbolAlreadyDeclared ∈ errs) ∧
    (namesOf (process_first_phase Assembler.new p)).count n ≤ 1 := by
  set l := p.instructions with hl
  set F := processFirstStep with hF
  set A := Assembler.new with hA
  have hsplit : ∀ m1 m2 : Nat, m1 ≤ m2 →
      (l.take m2).foldl F A = ((l.drop m1).take (m2 - m1)).foldl F ((l.take m1).foldl F A) := by
    intro m1 m2 hle
    rw [← List.foldl_append, ← List.take_add, show m1 + (m2 - m1) = m2 by omega]
  have hstep : ∀ m ins, l[m]? = some ins →
      (l.take (m + 1)).foldl F A = F ((l.take m).foldl F A) ins := by
    intro m ins hins
    rw [List.take_succ, hins, List.foldl_append]
    rfl
  -- current_section is set after the section header at k
  have h1 : ((l.take (k + 1)).foldl F A).current_section.isSome = true := by
    rw [hstep k insk hk]
    exact processFirstStep_header _ _ hsec
  have hcsi : ((l.take i).foldl F A).current_section.isSome = true := by
    rw [hsplit (k + 1) i (by omega)]
    exact foldl_cs_mono _ _ h1
  have hcsj : ((l.take j).foldl F A).current_section.isSome = true := by
    rw [hsplit (k + 1) j (by omega)]
    exact foldl_cs_mono _ _ h1
  -- after the first declaration of n
  have h3 : n ∈ namesOf ((l.take (i + 1)).foldl F A) ∨
      AssemblerError.SymbolAlreadyDeclared ∈ ((l.take (i + 1)).foldl F A).errors := by
    rw [hstep i insi hi]
    exact step_label_mem _ _ _ hcsi hli
  have h4 : n ∈ namesOf ((l.take j).foldl F A) ∨
      AssemblerError.SymbolAlreadyDeclared ∈ ((l.take j).foldl F A).errors := by
    rw [hsplit (i + 1) j (by omega)]
    rcases h3 with h | h
    · exact Or.inl (foldl_names_mono _ _ _ h)
    · exact Or.inr (foldl_errors_mono _ _ _ h)
  -- the second declaration reports the duplicate
  have h5 : AssemblerError.SymbolAlreadyDeclared ∈ ((l.take (j + 1)).foldl F A).errors := by
    rw [hstep j insj hj]
    rcases h4 with h | h
    · exact step_label_dup _ _ _ hcsj hlj h
    · obtain ⟨es, he⟩ := processFirstStep_errors ((l.take j).foldl F A) insj
      rw [he]
      exact List.mem_append_left _ h
  have h6 : AssemblerError.SymbolAlreadyDeclared ∈ (l.foldl F A).errors := by
    rw [show l = l.take (j + 1) ++ l.drop (j + 1) from (List.take_append_drop _ _).symm,
      List.foldl_append]
    exact foldl_errors_mono _ _ _ h5
  have hfp_err : (process_first_phase A p).errors = (l.foldl F A).errors := rfl
  have hfp_names : namesOf (process_first_phase A p) = namesOf (l.foldl F A) := rfl
  constructor
  · refine ⟨(process_first_phase A p).errors, ?_, ?_⟩
    · have hne : (process_first_phase A p).errors ≠ [] := by
        rw [hfp_err]
        exact List.ne_nil_of_mem h6
      unfold assembleRaw
      rw [hp]
      show some (assembleProgram p) = some (.error (process_first_phase A p).errors)
      rw [Option.some_inj]
      simp only [assembleProgram]
      rw [if_pos hne]
    · rw [hfp_err]
      exact h6
  · rw [hfp_names]
    exact List.nodup_iff_count_le_one.mp
      (foldl_nodup l A (by simp [hA, namesOf, Assembler.new])) n


/-- The parse of `"..code\nfoo: hlt\nfoo: hlt"`: a recognized section
header followed by two identical label declarations. -/
def dupProgram : Program :=
  ⟨[⟨none, some "code", none, none, none, none⟩,
    ⟨some .HLT, none, some "foo", none, none, none⟩,
    ⟨some .HLT, none, some "foo", none, none, none⟩]⟩

theorem duplicate_symbol_error_witness :
    parseProgram "..code\nfoo: hlt\nfoo: hlt".data = .ok dupProgram [] ∧
    isSectionHeader ⟨none, some "code", none, none, none, none⟩ = true ∧
    ((∃ errs, assembleRaw "..code\nfoo: hlt\nfoo: hlt" = some (.error errs) ∧
      AssemblerError.SymbolAlreadyDeclared ∈ errs) ∧
     (namesOf (process_first_phase Assembler.new dupProgram)).count "foo" ≤ 1) :=
  ⟨by decide, by decide,
    duplicate_symbol_error "..code\nfoo: hlt\nfoo: hlt" dupProgram [] "foo" 0 1 2
      ⟨none, some "code", none, none, none, none⟩
      ⟨some .HLT, none, some "foo", none, none, none⟩
      ⟨some .HLT, none, some "foo", none, none, none⟩
      (by decide) (by decide) (by decide) (by decide) (by decide) (by decide)
      (by decide) (by decide) (by decide)⟩
